import Mathlib

/-!
# ArkCircle: circle-accuracy scoring, basis points and leaderboard

A shallow embedding of

* `calculateScore` (src/src/GameCanvas.jsx, lines 102-178),
* the basis-point conversion in `submitScore` (src/src/App.jsx, line 79),
* `getLeaderboard` (src/src/Web3Manager.js, lines 88-106).

Number model.  JavaScript numbers are IEEE doubles.  Here a number is a
`JSNum`: either a finite value, carried as an exact real, or one of the three
special values `+Infinity`, `-Infinity`, `NaN`.  Arithmetic on finite values is
exact real arithmetic (rounding and overflow of large finite values are not
modelled); the special values follow the IEEE rules, so that a division by
zero produces `Infinity` or `NaN` exactly where the program does.  The
coordinates of a point are finite by type.  Signed zeros are not
distinguished: every divisor in the program is a sum of square roots or of
absolute values divided by a positive length, hence never `-0`.
-/

noncomputable section

namespace ArkCircle

/-! ## Numbers -/

/-- A JavaScript number: a finite value or one of the IEEE special values. -/
inductive JSNum where
  | fin (v : ℝ)
  | posInf
  | negInf
  | nan

namespace JSNum

/-- Unary minus. -/
def neg : JSNum → JSNum
  | fin a => fin (-a)
  | posInf => negInf
  | negInf => posInf
  | nan => nan

/-- The `+` operator on numbers. -/
def add : JSNum → JSNum → JSNum
  | fin a, fin b => fin (a + b)
  | fin _, posInf => posInf
  | fin _, negInf => negInf
  | posInf, fin _ => posInf
  | negInf, fin _ => negInf
  | posInf, posInf => posInf
  | negInf, negInf => negInf
  | posInf, negInf => nan
  | negInf, posInf => nan
  | nan, _ => nan
  | _, nan => nan

/-- The `-` operator on numbers. -/
def sub (a b : JSNum) : JSNum := add a (neg b)

/-- The product of an infinity (`+Infinity` when `positive`, else `-Infinity`)
with a finite `a`: `NaN` when `a` is zero, otherwise the infinity whose sign is
the product of the two signs. -/
def infTimes (positive : Bool) (a : ℝ) : JSNum :=
  if a = 0 then nan
  else if decide (0 < a) = positive then posInf else negInf

/-- The `*` operator on numbers. -/
def mul : JSNum → JSNum → JSNum
  | fin a, fin b => fin (a * b)
  | fin a, posInf => infTimes true a
  | fin a, negInf => infTimes false a
  | posInf, fin b => infTimes true b
  | negInf, fin b => infTimes false b
  | posInf, posInf => posInf
  | negInf, negInf => posInf
  | posInf, negInf => negInf
  | negInf, posInf => negInf
  | nan, _ => nan
  | _, nan => nan

/-- The `/` operator on numbers.  A finite value divided by zero is `NaN`
when the dividend is zero and an infinity of the dividend's sign otherwise. -/
def div : JSNum → JSNum → JSNum
  | fin a, fin b =>
      if b = 0 then (if a = 0 then nan else if 0 < a then posInf else negInf)
      else fin (a / b)
  | fin _, posInf => fin 0
  | fin _, negInf => fin 0
  | posInf, fin b => if 0 ≤ b then posInf else negInf
  | negInf, fin b => if 0 ≤ b then negInf else posInf
  | posInf, posInf => nan
  | posInf, negInf => nan
  | negInf, posInf => nan
  | negInf, negInf => nan
  | nan, _ => nan
  | _, nan => nan

/-- The `<` operator on numbers; every comparison with `NaN` is false. -/
def lt : JSNum → JSNum → Bool
  | fin a, fin b => decide (a < b)
  | fin _, posInf => true
  | negInf, fin _ => true
  | negInf, posInf => true
  | _, _ => false

/-- The `>` operator on numbers. -/
def gt (a b : JSNum) : Bool := lt b a

/-- The function `Math.floor`: special values are returned unchanged. -/
def floor : JSNum → JSNum
  | fin a => fin (⌊a⌋ : ℤ)
  | posInf => posInf
  | negInf => negInf
  | nan => nan

end JSNum

open JSNum

/-! ## The stroke and its statistics (GameCanvas.jsx) -/

/-- A pointer sample `{x, y}` in canvas coordinates. -/
structure Point where
  x : ℝ
  y : ℝ

/-- The accumulator `sumX` after `points.forEach(p => { sumX += p.x; ... })`. -/
def sumX (points : List Point) : ℝ :=
  points.foldl (fun s p => s + p.x) 0

/-- The accumulator `sumY` after `points.forEach(p => { ...; sumY += p.y; })`. -/
def sumY (points : List Point) : ℝ :=
  points.foldl (fun s p => s + p.y) 0

/-- The constant `centerX = sumX / points.length`. -/
def centerX (points : List Point) : ℝ :=
  sumX points / (points.length : ℝ)

/-- The constant `centerY = sumY / points.length`. -/
def centerY (points : List Point) : ℝ :=
  sumY points / (points.length : ℝ)

/-- The distance `Math.sqrt(dx*dx + dy*dy)` of `p` from `(cx, cy)`, with
`dx = p.x - cx` and `dy = p.y - cy`. -/
def radius (cx cy : ℝ) (p : Point) : ℝ :=
  let dx := p.x - cx
  let dy := p.y - cy
  Real.sqrt (dx * dx + dy * dy)

/-- The accumulator `sumR` after the second `forEach`. -/
def sumR (points : List Point) : ℝ :=
  points.foldl (fun s p => s + radius (centerX points) (centerY points) p) 0

/-- The constant `avgR = sumR / points.length`. -/
def avgR (points : List Point) : ℝ :=
  sumR points / (points.length : ℝ)

/-- The accumulator `errorSum` after the third `forEach`:
`errorSum += Math.abs(r - avgR)`. -/
def errorSum (points : List Point) : ℝ :=
  points.foldl
    (fun s p => s + |radius (centerX points) (centerY points) p - avgR points|) 0

/-- The constant `avgError = errorSum / points.length`. -/
def avgError (points : List Point) : ℝ :=
  errorSum points / (points.length : ℝ)

/-- The element `points[0]`. -/
def first (points : List Point) : Point :=
  points.getD 0 ⟨0, 0⟩

/-- The element `points[points.length - 1]`. -/
def last (points : List Point) : Point :=
  points.getD (points.length - 1) ⟨0, 0⟩

/-- The constant `closureDist`:
`Math.sqrt(Math.pow(first.x - last.x, 2) + Math.pow(first.y - last.y, 2))`. -/
def closureDist (points : List Point) : ℝ :=
  Real.sqrt (((first points).x - (last points).x) ^ 2
    + ((first points).y - (last points).y) ^ 2)

/-- The constant `errorRatio = avgError / avgR`. -/
def errorRatio (points : List Point) : JSNum :=
  div (fin (avgError points)) (fin (avgR points))

/-- The constant `closurePenalty = (closureDist / avgR) * 20`. -/
def closurePenalty (points : List Point) : JSNum :=
  mul (div (fin (closureDist points)) (fin (avgR points))) (fin 20)

/-- The variable `score` after `score -= closurePenalty`, before clamping. -/
def rawScore (points : List Point) : JSNum :=
  sub (mul (fin 100) (sub (fin 1) (mul (errorRatio points) (fin 3.5))))
    (closurePenalty points)

/-- The two statements `if (score < 0) score = 0; if (score > 100) score = 100;`. -/
def clamp (score : JSNum) : JSNum :=
  let score1 := if lt score (fin 0) then fin 0 else score
  if gt score1 (fin 100) then fin 100 else score1

/-- What is drawn after scoring: the centre dot at `(centerX, centerY)` and the
dashed ghost circle of radius `avgR` about it. -/
structure Overlay where
  centerX : ℝ
  centerY : ℝ
  ghostRadius : ℝ

/-- The observable result of one call of `calculateScore`: the argument passed
to `onScoreCalculated` and the overlay drawn on the canvas, if any.  (The
`console.log` line only formats `avgR`, `errorRatio` and `closurePenalty` and is
left out.) -/
structure Outcome where
  reported : JSNum
  overlay : Option Overlay

/-- The function `calculateScore` of `GameCanvas`, on the stroke `points`. -/
def calculateScore (points : List Point) : Outcome :=
  if points.length < 10 then
    { reported := fin 0, overlay := none }
  else
    { reported := clamp (rawScore points),
      overlay := some
        { centerX := centerX points, centerY := centerY points,
          ghostRadius := avgR points } }

/-! ## Basis points (App.jsx) -/

/-- The constant `scoreBasisPoints = Math.floor(score * 100)` of `submitScore`,
the argument of `contract.submitScore`. -/
def scoreBasisPoints (score : JSNum) : JSNum :=
  floor (mul score (fin 100))

/-! ## The leaderboard (Web3Manager.js)

The fields of a leaderboard record are integers; `Number(...)` of a `uint256`
is taken to be exact. -/

/-- The straight stroke: `n` evenly spaced collinear points `p_k = a + k*v`,
`k = 0..n-1`, with `a = (ax, ay)` and `v = (vx, vy)`. -/
def lineStroke (n : ℕ) (ax ay vx vy : ℝ) : List Point :=
  (List.range n).map (fun (k : ℕ) =>
    { x := ax + (k : ℝ) * vx, y := ay + (k : ℝ) * vy })

/-- The distance of the index `k` from the middle index `(n - 1) / 2` of a
stroke of `n` points. -/
def midDist (n k : ℕ) : ℝ :=
  |(k : ℝ) - ((n : ℝ) - 1) / 2|

/-- A closed stroke of ten samples on the circle of radius 5 about the origin,
whose mean is the origin. -/
def tenOnCircle : List Point :=
  [⟨5, 0⟩, ⟨0, 5⟩, ⟨-5, 0⟩, ⟨0, -5⟩, ⟨0, 5⟩, ⟨-5, 0⟩, ⟨0, -5⟩, ⟨0, 5⟩, ⟨0, -5⟩, ⟨5, 0⟩]

/-- A stroke of nine samples, one short of the minimum. -/
def nineSamples : List Point :=
  [⟨1, 0⟩, ⟨2, 1⟩, ⟨3, 3⟩, ⟨4, 6⟩, ⟨5, 10⟩, ⟨6, 15⟩, ⟨7, 21⟩, ⟨8, 28⟩, ⟨9, 36⟩]

/-- Ten samples at one and the same position. -/
def tenCoincident : List Point :=
  List.replicate 10 ⟨3, 4⟩

/-! ## The scoring formula as the specification words it -/

namespace Spec

/-- Arithmetic mean of a list of reals. -/
def mean (l : List ℝ) : ℝ := l.sum / (l.length : ℝ)

/-- Abscissa of the centroid `c`: the arithmetic mean of all points. -/
def cX (points : List Point) : ℝ := mean (points.map (fun p => p.x))

/-- Ordinate of the centroid `c`. -/
def cY (points : List Point) : ℝ := mean (points.map (fun p => p.y))

/-- The distance `r_i = sqrt((x_i - c_x)^2 + (y_i - c_y)^2)` of a point from the centroid. -/
def r (points : List Point) (p : Point) : ℝ :=
  Real.sqrt ((p.x - cX points) ^ 2 + (p.y - cY points) ^ 2)

/-- Mean radius: the arithmetic mean of the `r_i` over all points. -/
def avgR (points : List Point) : ℝ := mean (points.map (r points))

/-- Mean absolute radial deviation: the arithmetic mean of `|r_i - avgR|`. -/
def avgError (points : List Point) : ℝ :=
  mean (points.map (fun p => |r points p - avgR points|))

/-- Euclidean distance between two points. -/
def dist (p q : Point) : ℝ :=
  Real.sqrt ((p.x - q.x) ^ 2 + (p.y - q.y) ^ 2)

/-- The score of the specification:
`min(100, max(0, 100*(1 - 3.5*avgError/avgR) - 20*dist(p_0, p_{n-1})/avgR))`. -/
def score (points : List Point) : ℝ :=
  min 100 (max 0 (100 * (1 - 3.5 * avgError points / avgR points)
    - 20 * dist (points.getD 0 ⟨0, 0⟩) (points.getD (points.length - 1) ⟨0, 0⟩)
        / avgR points))

end Spec

/-! ## Basic facts about the embedding -/

theorem foldl_add_eq_sum {α : Type} (f : α → ℝ) (l : List α) (a : ℝ) :
    l.foldl (fun s p => s + f p) a = a + (l.map f).sum := by
  induction l generalizing a with
  | nil => simp
  | cons p t ih => simp [List.foldl_cons, ih, add_assoc]

theorem sumX_eq (points : List Point) :
    sumX points = (points.map (fun p => p.x)).sum := by
  simp [sumX, foldl_add_eq_sum]

theorem sumY_eq (points : List Point) :
    sumY points = (points.map (fun p => p.y)).sum := by
  simp [sumY, foldl_add_eq_sum]

theorem sumR_eq (points : List Point) :
    sumR points
      = (points.map (radius (centerX points) (centerY points))).sum := by
  simp [sumR, foldl_add_eq_sum]

theorem errorSum_eq (points : List Point) :
    errorSum points
      = (points.map (fun p =>
          |radius (centerX points) (centerY points) p - avgR points|)).sum := by
  simp [errorSum, foldl_add_eq_sum]

theorem clamp_fin (v : ℝ) : clamp (fin v) = fin (min 100 (max 0 v)) := by
  unfold clamp
  by_cases h0 : v < 0
  · have h1 : ¬ ((100 : ℝ) < 0) := by norm_num
    simp [JSNum.lt, JSNum.gt, h0, h1, max_eq_left h0.le]
  · have h0' : 0 ≤ v := not_lt.mp h0
    by_cases h1 : (100 : ℝ) < v
    · simp [JSNum.lt, JSNum.gt, h0, h1, max_eq_right h0', min_eq_left h1.le]
    · simp [JSNum.lt, JSNum.gt, h0, h1, max_eq_right h0', min_eq_right (not_lt.mp h1)]

theorem clamp_nan : clamp nan = nan := by
  simp [clamp, JSNum.lt, JSNum.gt]

theorem rawScore_fin (points : List Point) (h : avgR points ≠ 0) :
    rawScore points
      = fin (100 * (1 - avgError points / avgR points * 3.5)
          - closureDist points / avgR points * 20) := by
  simp [rawScore, errorRatio, closurePenalty, JSNum.div, JSNum.mul, JSNum.sub,
    JSNum.add, JSNum.neg, h, sub_eq_add_neg]

theorem reported_of_long (points : List Point) (h : 10 ≤ points.length) :
    (calculateScore points).reported = clamp (rawScore points) := by
  simp [calculateScore, Nat.not_lt.mpr h]

theorem reported_fin (points : List Point) (h : 10 ≤ points.length)
    (hR : avgR points ≠ 0) :
    (calculateScore points).reported
      = fin (min 100 (max 0 (100 * (1 - avgError points / avgR points * 3.5)
          - closureDist points / avgR points * 20))) := by
  rw [reported_of_long points h, rawScore_fin points hR, clamp_fin]

/-! ## The specification's formula agrees with the program's statistics -/

theorem spec_cX_eq (points : List Point) : Spec.cX points = centerX points := by
  simp [Spec.cX, Spec.mean, centerX, sumX_eq]

theorem spec_cY_eq (points : List Point) : Spec.cY points = centerY points := by
  simp [Spec.cY, Spec.mean, centerY, sumY_eq]

theorem spec_r_eq (points : List Point) :
    Spec.r points = radius (centerX points) (centerY points) := by
  funext p
  simp [Spec.r, radius, spec_cX_eq, spec_cY_eq, sq]

theorem spec_avgR_eq (points : List Point) : Spec.avgR points = avgR points := by
  simp [Spec.avgR, Spec.mean, avgR, sumR_eq, spec_r_eq]

theorem spec_avgError_eq (points : List Point) :
    Spec.avgError points = avgError points := by
  simp [Spec.avgError, Spec.mean, avgError, errorSum_eq, spec_r_eq, spec_avgR_eq]

theorem spec_dist_eq (points : List Point) :
    Spec.dist (points.getD 0 ⟨0, 0⟩) (points.getD (points.length - 1) ⟨0, 0⟩)
      = closureDist points := by
  simp [Spec.dist, closureDist, first, last]

/-! ## Sample strokes -/

theorem sqrt_twentyfive : Real.sqrt 25 = 5 := by
  rw [show (25 : ℝ) = 5 ^ 2 by norm_num, Real.sqrt_sq (by norm_num)]

theorem tenOnCircle_centerX : centerX tenOnCircle = 0 := by
  simp [centerX, sumX, tenOnCircle]

theorem tenOnCircle_centerY : centerY tenOnCircle = 0 := by
  simp [centerY, sumY, tenOnCircle]

theorem tenOnCircle_radius (p : Point) (hp : p ∈ tenOnCircle) :
    radius (centerX tenOnCircle) (centerY tenOnCircle) p = 5 := by
  rw [tenOnCircle_centerX, tenOnCircle_centerY]
  simp only [tenOnCircle, List.mem_cons, List.mem_singleton, List.not_mem_nil, or_false] at hp
  rcases hp with h | h | h | h | h | h | h | h | h | h <;> subst h <;>
    norm_num [radius, sqrt_twentyfive]

theorem tenOnCircle_avgR : avgR tenOnCircle = 5 := by
  have h : tenOnCircle.map (radius (centerX tenOnCircle) (centerY tenOnCircle))
      = List.replicate 10 5 := by
    rw [List.eq_replicate_iff]
    refine ⟨by simp [tenOnCircle], ?_⟩
    intro b hb
    obtain ⟨p, hp, rfl⟩ := List.mem_map.mp hb
    exact tenOnCircle_radius p hp
  rw [avgR, sumR_eq, h]
  simp [tenOnCircle]
  norm_num

/-! ## C1: strokes shorter than ten samples -/

/-- C1: a stroke with fewer than 10 points (the empty stroke included) is
reported with score exactly 0, and the call ends there: the outcome is the
early-return outcome, which carries no centroid and no mean radius
(no overlay is drawn), whatever the coordinates of the points are. -/
theorem calculateScore_short (points : List Point) (h : points.length < 10) :
    calculateScore points = { reported := fin 0, overlay := none } := by
  simp [calculateScore, h]

/-- C1, instance: the empty stroke and a stroke of nine samples. -/
theorem calculateScore_short_witness :
    (([] : List Point).length < 10 ∧ nineSamples.length < 10) ∧
    calculateScore [] = { reported := fin 0, overlay := none } ∧
    calculateScore nineSamples = { reported := fin 0, overlay := none } :=
  ⟨⟨by decide, by decide⟩,
   calculateScore_short [] (by decide),
   calculateScore_short nineSamples (by decide)⟩

/-! ## C2: the score formula -/

/-- C2: for a stroke of at least 10 points with mean radius `avgR > 0`, the
reported score is
`min(100, max(0, 100*(1 - 3.5*avgError/avgR) - 20*dist(p_0, p_{n-1})/avgR))`,
with centroid, radii, `avgR` and `avgError` the arithmetic means of the
specification. -/
theorem calculateScore_eq_spec (points : List Point) (h10 : 10 ≤ points.length)
    (hR : 0 < Spec.avgR points) :
    (calculateScore points).reported = fin (Spec.score points) := by
  have hR' : avgR points ≠ 0 := by
    rw [← spec_avgR_eq]; exact hR.ne'
  rw [reported_fin points h10 hR', Spec.score, spec_avgError_eq, spec_avgR_eq,
    spec_dist_eq]
  congr 3
  ring

/-- C2, instance: the closed ten-sample stroke on the circle of radius 5. -/
theorem calculateScore_eq_spec_witness :
    (10 ≤ tenOnCircle.length ∧ 0 < Spec.avgR tenOnCircle) ∧
    (calculateScore tenOnCircle).reported = fin (Spec.score tenOnCircle) :=
  ⟨⟨by decide, by rw [spec_avgR_eq, tenOnCircle_avgR]; norm_num⟩,
   calculateScore_eq_spec tenOnCircle (by decide)
     (by rw [spec_avgR_eq, tenOnCircle_avgR]; norm_num)⟩

/-! ## C8: basis points -/

/-- C8: for scores `0 ≤ s1 ≤ s2 ≤ 100` the values submitted to the contract,
`Math.floor(s * 100)`, are integers `k1`, `k2` with `0 ≤ k1 ≤ k2 ≤ 10000`: the
conversion lands in `[0, 10000]` and is monotone. -/
theorem scoreBasisPoints_range_mono (s1 s2 : ℝ) (h0 : 0 ≤ s1) (h12 : s1 ≤ s2)
    (h100 : s2 ≤ 100) :
    ∃ k1 k2 : ℤ, scoreBasisPoints (fin s1) = fin (k1 : ℝ) ∧
      scoreBasisPoints (fin s2) = fin (k2 : ℝ) ∧
      k1 = ⌊s1 * 100⌋ ∧ k2 = ⌊s2 * 100⌋ ∧ 0 ≤ k1 ∧ k1 ≤ k2 ∧ k2 ≤ 10000 := by
  refine ⟨⌊s1 * 100⌋, ⌊s2 * 100⌋, rfl, rfl, rfl, rfl, ?_, ?_, ?_⟩
  · exact Int.floor_nonneg.mpr (by positivity)
  · exact Int.floor_mono (by linarith)
  · have h : s2 * 100 ≤ ((10000 : ℤ) : ℝ) := by push_cast; linarith
    exact Int.cast_le.mp ((Int.floor_le _).trans h)

/-- C8, instance: the scores 12.345 and 99.999. -/
theorem scoreBasisPoints_range_mono_witness :
    ((0 : ℝ) ≤ 12.345 ∧ (12.345 : ℝ) ≤ 99.999 ∧ (99.999 : ℝ) ≤ 100) ∧
    ∃ k1 k2 : ℤ, scoreBasisPoints (fin 12.345) = fin (k1 : ℝ) ∧
      scoreBasisPoints (fin 99.999) = fin (k2 : ℝ) ∧
      k1 = ⌊(12.345 : ℝ) * 100⌋ ∧ k2 = ⌊(99.999 : ℝ) * 100⌋ ∧
      0 ≤ k1 ∧ k1 ≤ k2 ∧ k2 ≤ 10000 :=
  ⟨⟨by norm_num, by norm_num, by norm_num⟩,
   scoreBasisPoints_range_mono 12.345 99.999 (by norm_num) (by norm_num) (by norm_num)⟩

/-! ## C10: the leaderboard -/

theorem tenCoincident_centerX : centerX tenCoincident = 3 := by
  simp [centerX, sumX, tenCoincident, List.replicate]
  norm_num

theorem tenCoincident_centerY : centerY tenCoincident = 4 := by
  simp [centerY, sumY, tenCoincident, List.replicate]
  norm_num

theorem tenCoincident_avgR : avgR tenCoincident = 0 := by
  rw [avgR, sumR_eq, tenCoincident_centerX, tenCoincident_centerY]
  simp [tenCoincident, radius]

theorem tenCoincident_avgError : avgError tenCoincident = 0 := by
  rw [avgError, errorSum_eq, tenCoincident_avgR, tenCoincident_centerX,
    tenCoincident_centerY]
  simp [tenCoincident, radius]

/-- C3, the program at ten coincident samples: the mean radius is 0, both
divisions are `0 / 0`, and the value reported is `NaN`, which is neither 0 nor
any number in `[0, 100]`. -/
theorem calculateScore_tenCoincident :
    tenCoincident.length = 10 ∧ avgR tenCoincident = 0 ∧
    errorRatio tenCoincident = nan ∧
    (calculateScore tenCoincident).reported = nan ∧
    ¬ ∃ s : ℝ, (calculateScore tenCoincident).reported = fin s := by
  have hrep : (calculateScore tenCoincident).reported = nan := by
    rw [reported_of_long tenCoincident (by decide)]
    simp [rawScore, errorRatio, closurePenalty, tenCoincident_avgR,
      tenCoincident_avgError, JSNum.div, JSNum.mul, JSNum.sub, JSNum.add, JSNum.neg,
      clamp_nan]
  refine ⟨by decide, tenCoincident_avgR, ?_, hrep, ?_⟩
  · simp [errorRatio, tenCoincident_avgR, tenCoincident_avgError, JSNum.div]
  · rintro ⟨s, hs⟩
    rw [hrep] at hs
    cases hs

/-! ## Signs of the statistics -/

theorem sum_map_range_eq (f : ℕ → ℝ) (n : ℕ) :
    ((List.range n).map f).sum = ∑ k in Finset.range n, f k := by
  induction n with
  | zero => simp
  | succ n ih => rw [List.range_succ, List.map_append, List.sum_append, ih,
      Finset.sum_range_succ]; simp

theorem sum_range_cast (n : ℕ) :
    ∑ k in Finset.range n, (k : ℝ) = (n : ℝ) * ((n : ℝ) - 1) / 2 := by
  induction n with
  | zero => simp
  | succ n ih =>
    rw [Finset.sum_range_succ, ih]
    push_cast
    ring

theorem sum_range_cast_sq (n : ℕ) :
    ∑ k in Finset.range n, (k : ℝ) ^ 2
      = ((n : ℝ) - 1) * (n : ℝ) * (2 * (n : ℝ) - 1) / 6 := by
  induction n with
  | zero => simp
  | succ n ih =>
    rw [Finset.sum_range_succ, ih]
    push_cast
    ring

theorem sum_midDist_sq (n : ℕ) :
    ∑ k in Finset.range n, midDist n k ^ 2
      = (n : ℝ) * ((n : ℝ) ^ 2 - 1) / 12 := by
  have h : ∀ k ∈ Finset.range n, midDist n k ^ 2
      = (k : ℝ) ^ 2 - ((n : ℝ) - 1) * (k : ℝ) + (((n : ℝ) - 1) / 2) ^ 2 := by
    intro k _
    rw [midDist, sq_abs]
    ring
  rw [Finset.sum_congr rfl h, Finset.sum_add_distrib, Finset.sum_sub_distrib,
    ← Finset.mul_sum, sum_range_cast, sum_range_cast_sq, Finset.sum_const,
    Finset.card_range, nsmul_eq_mul]
  ring

/-- Two more points add the two new end indices, each at distance `(n + 1) / 2`
from the middle, and leave the other distances as they were. -/
theorem sum_midDist_add_two (n : ℕ) :
    ∑ k in Finset.range (n + 2), midDist (n + 2) k
      = ∑ k in Finset.range n, midDist n k + ((n : ℝ) + 1) := by
  rw [Finset.sum_range_succ, Finset.sum_range_succ']
  have hmid : ∀ k ∈ Finset.range n, midDist (n + 2) (k + 1) = midDist n k := by
    intro k _
    simp only [midDist]
    congr 1
    push_cast
    ring
  have hfirst : midDist (n + 2) 0 = ((n : ℝ) + 1) / 2 := by
    simp only [midDist]
    push_cast
    have hn : (0 : ℝ) ≤ (n : ℝ) := Nat.cast_nonneg n
    rw [zero_sub, abs_neg, abs_of_nonneg (by linarith)]
    ring
  have hlast : midDist (n + 2) (n + 1) = ((n : ℝ) + 1) / 2 := by
    simp only [midDist]
    push_cast
    have hn : (0 : ℝ) ≤ (n : ℝ) := Nat.cast_nonneg n
    rw [abs_of_nonneg (by linarith)]
    ring
  rw [Finset.sum_congr rfl hmid, hfirst, hlast]
  ring

theorem sum_midDist_le (n : ℕ) :
    ∑ k in Finset.range n, midDist n k ≤ (n : ℝ) ^ 2 / 4 := by
  induction n using Nat.twoStepInduction with
  | zero => simp
  | one => simp [midDist]
  | more n ih _ =>
    rw [sum_midDist_add_two]
    push_cast
    nlinarith [ih]

theorem midDist_nonneg (n k : ℕ) : 0 ≤ midDist n k := abs_nonneg _

theorem midDist_le (n k : ℕ) (hk : k < n) : midDist n k ≤ ((n : ℝ) - 1) / 2 := by
  have h1 : (k : ℝ) + 1 ≤ (n : ℝ) := by exact_mod_cast hk
  have h0 : (0 : ℝ) ≤ (k : ℝ) := Nat.cast_nonneg k
  rw [midDist, abs_le]
  constructor <;> linarith

/-! ## The straight stroke -/

theorem length_lineStroke (n : ℕ) (ax ay vx vy : ℝ) :
    (lineStroke n ax ay vx vy).length = n := by
  simp [lineStroke]

theorem mem_lineStroke (n : ℕ) (ax ay vx vy : ℝ) (p : Point)
    (hp : p ∈ lineStroke n ax ay vx vy) :
    ∃ k, k < n ∧ p = { x := ax + (k : ℝ) * vx, y := ay + (k : ℝ) * vy } := by
  obtain ⟨k, hk, rfl⟩ := List.mem_map.mp hp
  exact ⟨k, List.mem_range.mp hk, rfl⟩

theorem sum_map_lineStroke (n : ℕ) (ax ay vx vy : ℝ) (f : Point → ℝ) :
    ((lineStroke n ax ay vx vy).map f).sum
      = ∑ k in Finset.range n,
          f { x := ax + (k : ℝ) * vx, y := ay + (k : ℝ) * vy } := by
  rw [lineStroke, List.map_map, sum_map_range_eq]
  rfl

theorem centerX_lineStroke (n : ℕ) (hn : 0 < n) (ax ay vx vy : ℝ) :
    centerX (lineStroke n ax ay vx vy) = ax + ((n : ℝ) - 1) / 2 * vx := by
  have hn0 : (n : ℝ) ≠ 0 := by exact_mod_cast hn.ne'
  rw [centerX, sumX_eq, length_lineStroke, sum_map_lineStroke]
  simp only
  rw [Finset.sum_add_distrib, ← Finset.sum_mul, sum_range_cast, Finset.sum_const,
    Finset.card_range, nsmul_eq_mul]
  field_simp
  ring

theorem centerY_lineStroke (n : ℕ) (hn : 0 < n) (ax ay vx vy : ℝ) :
    centerY (lineStroke n ax ay vx vy) = ay + ((n : ℝ) - 1) / 2 * vy := by
  have hn0 : (n : ℝ) ≠ 0 := by exact_mod_cast hn.ne'
  rw [centerY, sumY_eq, length_lineStroke, sum_map_lineStroke]
  simp only
  rw [Finset.sum_add_distrib, ← Finset.sum_mul, sum_range_cast, Finset.sum_const,
    Finset.card_range, nsmul_eq_mul]
  field_simp
  ring

theorem radius_lineStroke (n k : ℕ) (ax ay vx vy : ℝ) :
    radius (ax + ((n : ℝ) - 1) / 2 * vx) (ay + ((n : ℝ) - 1) / 2 * vy)
        { x := ax + (k : ℝ) * vx, y := ay + (k : ℝ) * vy }
      = midDist n k * Real.sqrt (vx * vx + vy * vy) := by
  simp only [radius, midDist]
  rw [show (ax + (k : ℝ) * vx - (ax + ((n : ℝ) - 1) / 2 * vx))
        * (ax + (k : ℝ) * vx - (ax + ((n : ℝ) - 1) / 2 * vx))
        + (ay + (k : ℝ) * vy - (ay + ((n : ℝ) - 1) / 2 * vy))
        * (ay + (k : ℝ) * vy - (ay + ((n : ℝ) - 1) / 2 * vy))
      = ((k : ℝ) - ((n : ℝ) - 1) / 2) ^ 2 * (vx * vx + vy * vy) by ring,
    Real.sqrt_mul (sq_nonneg _), Real.sqrt_sq_eq_abs]

theorem avgR_lineStroke (n : ℕ) (hn : 0 < n) (ax ay vx vy : ℝ) :
    avgR (lineStroke n ax ay vx vy)
      = Real.sqrt (vx * vx + vy * vy) * (∑ k in Finset.range n, midDist n k) / (n : ℝ) := by
  rw [avgR, sumR_eq, length_lineStroke, sum_map_lineStroke, centerX_lineStroke n hn,
    centerY_lineStroke n hn]
  simp only [radius_lineStroke]
  rw [← Finset.sum_mul, mul_comm]

theorem avgError_lineStroke (n : ℕ) (hn : 0 < n) (ax ay vx vy : ℝ) :
    avgError (lineStroke n ax ay vx vy)
      = Real.sqrt (vx * vx + vy * vy)
          * (∑ k in Finset.range n,
              |midDist n k - (∑ j in Finset.range n, midDist n j) / (n : ℝ)|) / (n : ℝ) := by
  rw [avgError, errorSum_eq, length_lineStroke, sum_map_lineStroke, centerX_lineStroke n hn,
    centerY_lineStroke n hn, avgR_lineStroke n hn]
  simp only [radius_lineStroke]
  have key : ∀ k : ℕ,
      |midDist n k * Real.sqrt (vx * vx + vy * vy)
        - Real.sqrt (vx * vx + vy * vy) * (∑ j in Finset.range n, midDist n j) / (n : ℝ)|
      = Real.sqrt (vx * vx + vy * vy)
        * |midDist n k - (∑ j in Finset.range n, midDist n j) / (n : ℝ)| := by
    intro k
    rw [show midDist n k * Real.sqrt (vx * vx + vy * vy)
          - Real.sqrt (vx * vx + vy * vy) * (∑ j in Finset.range n, midDist n j) / (n : ℝ)
        = Real.sqrt (vx * vx + vy * vy)
          * (midDist n k - (∑ j in Finset.range n, midDist n j) / (n : ℝ)) by ring,
      abs_mul, abs_of_nonneg (Real.sqrt_nonneg _)]
  simp only [key]
  rw [← Finset.mul_sum]

theorem closureDist_lineStroke (n : ℕ) (hn : 0 < n) (ax ay vx vy : ℝ) :
    closureDist (lineStroke n ax ay vx vy)
      = ((n : ℝ) - 1) * Real.sqrt (vx * vx + vy * vy) := by
  have h1 : n - 1 < n := by omega
  have hf : first (lineStroke n ax ay vx vy)
      = { x := ax + ((0 : ℕ) : ℝ) * vx, y := ay + ((0 : ℕ) : ℝ) * vy } := by
    simp only [first, lineStroke]
    rw [List.getD_eq_getElem _ _ (by simpa using hn)]
    simp
  have hl : last (lineStroke n ax ay vx vy)
      = { x := ax + ((n - 1 : ℕ) : ℝ) * vx, y := ay + ((n - 1 : ℕ) : ℝ) * vy } := by
    simp only [last, lineStroke, List.length_map, List.length_range]
    rw [List.getD_eq_getElem _ _ (by simpa using h1)]
    simp
  have hc : ((n - 1 : ℕ) : ℝ) = (n : ℝ) - 1 := by
    rw [Nat.cast_sub (by omega)]; simp
  have hn1 : (0 : ℝ) ≤ (n : ℝ) - 1 := by
    rw [← hc]; exact Nat.cast_nonneg _
  simp only [closureDist, hf, hl, hc, Nat.cast_zero]
  rw [show (ax + 0 * vx - (ax + ((n : ℝ) - 1) * vx)) ^ 2
        + (ay + 0 * vy - (ay + ((n : ℝ) - 1) * vy)) ^ 2
      = ((n : ℝ) - 1) ^ 2 * (vx * vx + vy * vy) by ring,
    Real.sqrt_mul (sq_nonneg _), Real.sqrt_sq hn1]

theorem sum_midDist_nonneg (n : ℕ) : 0 ≤ ∑ k in Finset.range n, midDist n k :=
  Finset.sum_nonneg (fun k _ => midDist_nonneg n k)

theorem sum_midDist_pos (n : ℕ) (hn : 2 ≤ n) : 0 < ∑ k in Finset.range n, midDist n k := by
  have h0 : midDist n 0 ≤ ∑ k in Finset.range n, midDist n k :=
    Finset.single_le_sum (f := fun k => midDist n k) (fun k _ => midDist_nonneg n k)
      (Finset.mem_range.mpr (by omega))
  have hN : (2 : ℝ) ≤ (n : ℝ) := by exact_mod_cast hn
  have hpos : 0 < midDist n 0 := by
    rw [midDist, abs_pos]
    push_cast
    linarith
  linarith

theorem sum_midDist_le_mul (n : ℕ) :
    ∑ k in Finset.range n, midDist n k ≤ (n : ℝ) * (((n : ℝ) - 1) / 2) := by
  have h := Finset.sum_le_sum (fun k hk => midDist_le n k (Finset.mem_range.mp hk))
  rw [Finset.sum_const, Finset.card_range, nsmul_eq_mul] at h
  exact h

/-- The squared deviations of the distances from their mean are bounded by the
largest distance times the absolute deviations. -/
theorem line_variance_le (n : ℕ) (hn : 0 < n) :
    (n : ℝ) * ((n : ℝ) ^ 2 - 1) / 12
        - (∑ k in Finset.range n, midDist n k) ^ 2 / (n : ℝ)
      ≤ ((n : ℝ) - 1) / 2
          * ∑ k in Finset.range n,
              |midDist n k - (∑ j in Finset.range n, midDist n j) / (n : ℝ)| := by
  have hN : (0 : ℝ) < (n : ℝ) := by exact_mod_cast hn
  set S : ℝ := ∑ k in Finset.range n, midDist n k with hS
  have hS0 : 0 ≤ S := sum_midDist_nonneg n
  have hSle : S ≤ (n : ℝ) * (((n : ℝ) - 1) / 2) := sum_midDist_le_mul n
  have ha0 : 0 ≤ S / (n : ℝ) := div_nonneg hS0 hN.le
  have hac : S / (n : ℝ) ≤ ((n : ℝ) - 1) / 2 := by
    rw [div_le_iff₀ hN]; linarith
  have hterm : ∀ k ∈ Finset.range n,
      (midDist n k - S / (n : ℝ)) ^ 2
        ≤ ((n : ℝ) - 1) / 2 * |midDist n k - S / (n : ℝ)| := by
    intro k hk
    have hd0 := midDist_nonneg n k
    have hdc := midDist_le n k (Finset.mem_range.mp hk)
    have habs : |midDist n k - S / (n : ℝ)| ≤ ((n : ℝ) - 1) / 2 := by
      rw [abs_le]; constructor <;> linarith
    rw [← sq_abs]
    nlinarith [abs_nonneg (midDist n k - S / (n : ℝ))]
  have hsum := Finset.sum_le_sum hterm
  rw [← Finset.mul_sum] at hsum
  have hexp : ∑ k in Finset.range n, (midDist n k - S / (n : ℝ)) ^ 2
      = (n : ℝ) * ((n : ℝ) ^ 2 - 1) / 12 - S ^ 2 / (n : ℝ) := by
    have h : ∀ k ∈ Finset.range n, (midDist n k - S / (n : ℝ)) ^ 2
        = midDist n k ^ 2 - 2 * (S / (n : ℝ)) * midDist n k + (S / (n : ℝ)) ^ 2 := by
      intro k _; ring
    rw [Finset.sum_congr rfl h, Finset.sum_add_distrib, Finset.sum_sub_distrib,
      ← Finset.mul_sum, sum_midDist_sq, ← hS, Finset.sum_const, Finset.card_range,
      nsmul_eq_mul]
    field_simp
    ring
  rw [hexp] at hsum
  exact hsum

/-- The inequality behind the zero score of a straight stroke: with `S` the sum
of the distances from the middle and `T` the sum of their absolute deviations
from the mean, `100 * S ≤ 350 * T + 20 * n * (n - 1)`. -/
theorem line_score_ineq (n : ℕ) (hn : 10 ≤ n) :
    100 * (∑ k in Finset.range n, midDist n k)
      ≤ 350 * (∑ k in Finset.range n,
            |midDist n k - (∑ j in Finset.range n, midDist n j) / (n : ℝ)|)
        + 20 * (n : ℝ) * ((n : ℝ) - 1) := by
  have hN : (10 : ℝ) ≤ (n : ℝ) := by exact_mod_cast hn
  have hV := line_variance_le n (by omega)
  have hSle := sum_midDist_le n
  have hS0 := sum_midDist_nonneg n
  set S : ℝ := ∑ k in Finset.range n, midDist n k with hS
  set T : ℝ := ∑ k in Finset.range n, |midDist n k - S / (n : ℝ)| with hT
  have hsq : S ^ 2 / (n : ℝ) ≤ (n : ℝ) * S / 4 := by
    rw [div_le_iff₀ (by linarith)]
    nlinarith
  have hc : (0 : ℝ) < ((n : ℝ) - 1) / 2 := by linarith
  have hprod : S * (137.5 * (n : ℝ) - 50) ≤ (n : ℝ) ^ 2 / 4 * (137.5 * (n : ℝ) - 50) :=
    mul_le_mul_of_nonneg_right hSle (by linarith)
  have key : ((n : ℝ) - 1) / 2 * (100 * S)
      ≤ ((n : ℝ) - 1) / 2 * (350 * T + 20 * (n : ℝ) * ((n : ℝ) - 1)) := by
    have h3 : (n : ℝ) ^ 3 ≥ 100 * (n : ℝ) := by nlinarith
    have h2 : (n : ℝ) ^ 2 ≥ 10 * (n : ℝ) := by nlinarith
    nlinarith
  exact le_of_mul_le_mul_left key hc

/-! ## C7: a straight line scores 0 -/

/-- C7: for every `n ≥ 10`, every start point `(ax, ay)` and every non-zero step
`(vx, vy)`, the stroke of the `n` evenly spaced collinear points
`p_k = (ax + k*vx, ay + k*vy)`, `k = 0..n-1`, has mean radius `avgR > 0` and
score exactly 0. -/
theorem calculateScore_lineStroke (n : ℕ) (hn : 10 ≤ n) (ax ay vx vy : ℝ)
    (hv : vx ≠ 0 ∨ vy ≠ 0) :
    0 < avgR (lineStroke n ax ay vx vy) ∧
    (calculateScore (lineStroke n ax ay vx vy)).reported = fin 0 := by
  have hn0 : 0 < n := by omega
  have hN : (10 : ℝ) ≤ (n : ℝ) := by exact_mod_cast hn
  have hNpos : (0 : ℝ) < (n : ℝ) := by linarith
  have hL : 0 < Real.sqrt (vx * vx + vy * vy) := by
    apply Real.sqrt_pos.mpr
    rcases hv with h | h
    · have := mul_self_pos.mpr h
      nlinarith [mul_self_nonneg vy]
    · have := mul_self_pos.mpr h
      nlinarith [mul_self_nonneg vx]
  have hS := sum_midDist_pos n (by omega)
  have hineq := line_score_ineq n hn
  have hR : avgR (lineStroke n ax ay vx vy)
      = Real.sqrt (vx * vx + vy * vy) * (∑ k in Finset.range n, midDist n k) / (n : ℝ) :=
    avgR_lineStroke n hn0 ax ay vx vy
  have hRpos : 0 < avgR (lineStroke n ax ay vx vy) := by
    rw [hR]; positivity
  refine ⟨hRpos, ?_⟩
  rw [reported_fin _ (by rwa [length_lineStroke]) hRpos.ne', hR,
    avgError_lineStroke n hn0, closureDist_lineStroke n hn0]
  set L : ℝ := Real.sqrt (vx * vx + vy * vy) with hLdef
  set S : ℝ := ∑ k in Finset.range n, midDist n k with hSdef
  set T : ℝ := ∑ k in Finset.range n, |midDist n k - S / (n : ℝ)| with hTdef
  have hX : 100 * (1 - L * T / (n : ℝ) / (L * S / (n : ℝ)) * 3.5)
        - ((n : ℝ) - 1) * L / (L * S / (n : ℝ)) * 20
      = (100 * S - (350 * T + 20 * (n : ℝ) * ((n : ℝ) - 1))) / S := by
    field_simp
    ring
  have hle : (100 * S - (350 * T + 20 * (n : ℝ) * ((n : ℝ) - 1))) / S ≤ 0 :=
    div_nonpos_of_nonpos_of_nonneg (by linarith) hS.le
  rw [hX, max_eq_left hle, min_eq_right (by norm_num)]

/-- C7, instance: ten points `(k, 0)`, `k = 0..9`. -/
theorem calculateScore_lineStroke_witness :
    (10 ≤ 10 ∧ ((1 : ℝ) ≠ 0 ∨ (0 : ℝ) ≠ 0)) ∧
    0 < avgR (lineStroke 10 0 0 1 0) ∧
    (calculateScore (lineStroke 10 0 0 1 0)).reported = fin 0 :=
  ⟨⟨le_refl 10, Or.inl one_ne_zero⟩,
   calculateScore_lineStroke 10 (le_refl 10) 0 0 1 0 (Or.inl one_ne_zero)⟩

end ArkCircle
